import Mathlib

/-!
# llm-council: verification of the CLI and the council deliberation pipeline

The repository source contains the command-line front end (`cli.py`). The
three-stage deliberation pipeline (`backend/council.py`, imported by the CLI
as `run_full_council`) is not part of the provided sources, so the pipeline
components below are modelled from the specification; the CLI definitions are
translated directly from `cli.py`.
-/

namespace LLMCouncil

/-! ## CLI embedding (from `src/cli.py`) -/

/-- The parsed command-line arguments that determine the prompt source in
`main` (`cli.py` lines 104-116): the optional `--file` path, the optional
positional prompt, and whether stdin is a tty. -/
structure CliArgs where
  file : Option String
  prompt : Option String
  stdinIsTty : Bool

/-- Python truthiness of an optional string: `None` and `""` are falsy. -/
def optTruthy (o : Option String) : Bool :=
  match o with
  | none => false
  | some s => !(s == "")

/-- Python `str.strip()` with no arguments: remove leading and trailing
whitespace characters. -/
def pyStrip (s : String) : String :=
  ⟨((s.data.dropWhile Char.isWhitespace).reverse.dropWhile Char.isWhitespace).reverse⟩

/-- Outcome of `main`'s prompt resolution (`cli.py` lines 106-122): either the
council is run with a prompt, or the empty-prompt error is printed to stderr
and the process exits 1, or help is printed and the process exits 1. -/
inductive PromptOutcome where
  | run (prompt : String)
  | emptyPromptError (stderrLine : String) (exitCode : Nat)
  | helpThenExit (exitCode : Nat)
  deriving DecidableEq, Repr

/-- The final emptiness check of `main` (`cli.py` lines 118-122): an empty
resolved prompt prints an error to stderr and exits 1, otherwise the council
runs. -/
def promptCheck (p : String) : PromptOutcome :=
  if p == "" then .emptyPromptError "Error: Empty prompt" 1 else .run p

/-- Prompt resolution of `main` (`cli.py` lines 106-122): `--file` contents
(stripped) if a file argument is truthy, else the positional prompt if truthy,
else stripped stdin when it is not a tty, else print help and exit 1.
`readFile` maps a path to the file contents and `stdinContent` is what piping
stdin would yield. -/
def resolvePrompt (args : CliArgs) (readFile : String → String)
    (stdinContent : String) : PromptOutcome :=
  let p? : Option String :=
    if optTruthy args.file then some (pyStrip (readFile (args.file.getD "")))
    else if optTruthy args.prompt then some (args.prompt.getD "")
    else if !args.stdinIsTty then some (pyStrip stdinContent)
    else none
  match p? with
  | none => .helpThenExit 1
  | some p => promptCheck p

/-! ## Pipeline data model

Modelled from the spec: `backend/council.py` (the `run_full_council`
pipeline) is not among the provided sources. The definitions in the rest of
this file follow the specification's component design (sections 3, 4 and 7).
-/

/-- Modelled from the spec: the model-client error taxonomy
`ModelError{Timeout, TransportFailure, ProviderError, EmptyResponse}`. -/
inductive ModelError where
  | timeout
  | transportFailure
  | providerError
  | emptyResponse
  deriving DecidableEq, Repr

/-- Modelled from the spec: `ModelResponse` is {model identity, response text,
optional error}. -/
structure ModelResponse where
  model : String
  response : String
  error : Option ModelError
  deriving DecidableEq, Repr

/-- Modelled from the spec: the Model Client capability
`send(model_identity, prompt) -> Result<text, ModelError>`, abstracted as an
oracle from model identity to outcome (the prompt is fixed for one run). -/
def SendOracle : Type := String → Except ModelError String

/-- Modelled from the spec: turn one model's `send` outcome into its Stage-1
`ModelResponse`: a success carries the text and no error; a failure carries
the error and an empty sentinel response text. -/
def respondTo (send : SendOracle) (m : String) : ModelResponse :=
  match send m with
  | .ok t => ⟨m, t, none⟩
  | .error e => ⟨m, "", some e⟩

/-- Modelled from the spec: Stage 1 output is one `ModelResponse` per
configured council model, failed ones included, in configured council
order. -/
def stage1 (models : List String) (send : SendOracle) : List ModelResponse :=
  models.map (respondTo send)

/-- Modelled from the spec: the successful subset of a Stage-1 result list
(entries with no error), in stable order. -/
def successes (rs : List ModelResponse) : List ModelResponse :=
  rs.filter (fun r => r.error.isNone)

/-- Modelled from the spec: the anonymized label assigned to the i-th
successful Stage-1 response ("Response A", "Response B", ...). -/
def labelOf (i : Nat) : String :=
  "Response " ++ String.singleton (Char.ofNat (65 + i))

/-- Modelled from the spec: assign labels to responses in input order,
starting at index `i`. -/
def assignLabels : Nat → List ModelResponse → List (String × ModelResponse)
  | _, [] => []
  | i, r :: rest => (labelOf i, r) :: assignLabels (i + 1) rest

/-- Modelled from the spec: the `AnonymizationMap` generated fresh per run:
labels are assigned to the successful Stage-1 responses in input order. -/
def anonymize (rs : List ModelResponse) : List (String × ModelResponse) :=
  assignLabels 0 (successes rs)

/-! ## Stage 2: ranking extraction -/

/-- Modelled from the spec: the known labels that occur in some suffix of the
text, i.e. the labels matching at one scan position of the free-text reply. -/
def labelMatchesAt (known : List String) (suffix : List Char) : List String :=
  known.filter (fun l => l.data.isPrefixOf suffix)

/-- Modelled from the spec: scan the text left to right, collecting each known
label at its first occurrence (de-duplicating against what was already
collected) and stopping once every known label has been seen once. -/
def collectLabels (known : List String) :
    List (List Char) → List String → List String
  | [], acc => acc
  | suf :: rest, acc =>
    if known.all (fun l => acc.contains l) then acc
    else
      collectLabels known rest
        (acc ++ (labelMatchesAt known suf).filter (fun l => !(acc.contains l)))

/-- Modelled from the spec: the ranking-extraction algorithm. Given free-text
model output, extract every substring matching a known label in order of
appearance, de-duplicate keeping the first occurrence, stop once all known
labels have been seen; recognizing nothing yields the empty list. -/
def extractRanking (known : List String) (text : String) : List String :=
  collectLabels known text.data.tails []

/-- The scan position of the first occurrence of label `l` in a suffix list:
the index of the first suffix that `l` is a prefix of (list length if
none). Applied to `text.data.tails` this is the position in the text where
`l` first appears. -/
def firstHit (l : String) (sufs : List (List Char)) : Nat :=
  sufs.findIdx (fun suf => l.data.isPrefixOf suf)

/-- A label occurs in the text iff it is a prefix of some suffix of it. -/
def occursIn (l : String) (text : String) : Prop :=
  ∃ suf ∈ text.data.tails, l.data.isPrefixOf suf = true

instance (l text : String) : Decidable (occursIn l text) := by
  unfold occursIn; infer_instance

/-- Modelled from the spec: one Stage-2 result: the ranking model, the raw
ranking text, and the `ParsedRanking` extracted from it. -/
structure Stage2Result where
  model : String
  ranking : String
  parsed_ranking : List String
  deriving DecidableEq, Repr

/-- Modelled from the spec: one Stage-2 ranking request: the surviving model
being asked, and the full anonymized response set presented to it. -/
structure RankingRequest where
  requester : String
  presented : List (String × ModelResponse)
  deriving DecidableEq, Repr

/-- Modelled from the spec: Stage 2 sends each surviving model one ranking
request containing all anonymized Stage-1 responses (its own included). -/
def stage2Requests (rs : List ModelResponse) : List RankingRequest :=
  (successes rs).map (fun r => ⟨r.model, anonymize rs⟩)

/-- Modelled from the spec: the oracle for one model's free-text reply to a
ranking request. -/
def RankOracle : Type := String → List (String × ModelResponse) → Except ModelError String

/-- Modelled from the spec: Stage 2 collects, per surviving model, the raw
ranking text together with the parsed label ranking; an individual failure is
recorded (empty text, empty parse), never thrown. -/
def stage2 (rs : List ModelResponse) (rank : RankOracle) : List Stage2Result :=
  (successes rs).map (fun r =>
    match rank r.model (anonymize rs) with
    | .ok text => ⟨r.model, text, extractRanking ((anonymize rs).map (fun p => p.1)) text⟩
    | .error _ => ⟨r.model, "", []⟩)

/-! ## Ranking aggregation -/

/-- Modelled from the spec: the 1-indexed positions of label `l` across
exactly the rankings that mention it. -/
def positionsOf (l : String) (rankings : List (List String)) : List Nat :=
  rankings.filterMap (fun r =>
    if l ∈ r then some (r.findIdx (fun b => b == l) + 1) else none)

/-- Modelled from the spec: one `AggregateEntry`: real model identity, average
rank, and the number of rankings that mentioned the model. -/
structure AggregateEntry where
  model : String
  average_rank : ℚ
  rankings_count : Nat
  deriving DecidableEq, Repr

/-- An `AggregateEntry` paired with its original Stage-1 label position, used
as the final tie-break. -/
structure IndexedEntry where
  entry : AggregateEntry
  idx : Nat
  deriving DecidableEq, Repr

/-- Modelled from the spec: build the unsorted aggregate entries by walking
the labels in Stage-1 order (starting at index `i`): a label mentioned by no
ranking gets no entry; a mentioned label gets the average of its 1-indexed
positions over the rankings that mention it, and their count. -/
def rawEntriesFrom (f : String → String) (rankings : List (List String)) :
    Nat → List String → List IndexedEntry
  | _, [] => []
  | i, l :: ls =>
    if (positionsOf l rankings).isEmpty then rawEntriesFrom f rankings (i + 1) ls
    else ⟨⟨f l, ((positionsOf l rankings).sum : ℚ) / ((positionsOf l rankings).length : ℚ),
        (positionsOf l rankings).length⟩, i⟩ ::
      rawEntriesFrom f rankings (i + 1) ls

/-- The sort key of an aggregate entry: ascending average rank, then
descending rankings_count (negated), then original Stage-1 label order. -/
def entryKey (a : IndexedEntry) : ℚ ×ₗ (ℤ ×ₗ Nat) :=
  toLex (a.entry.average_rank, toLex (-(a.entry.rankings_count : ℤ), a.idx))

/-- The sorting relation of the aggregator: compare sort keys. -/
def entryLE (a b : IndexedEntry) : Prop :=
  entryKey a ≤ entryKey b

instance : DecidableRel entryLE := fun a b =>
  inferInstanceAs (Decidable (entryKey a ≤ entryKey b))

instance : IsTotal IndexedEntry entryLE :=
  ⟨fun a b => le_total (entryKey a) (entryKey b)⟩

instance : IsTrans IndexedEntry entryLE :=
  ⟨fun _ _ _ hab hbc => le_trans hab hbc⟩

/-- Modelled from the spec: the aggregate entries, still carrying their
Stage-1 index, sorted ascending by average rank with ties broken by
descending rankings_count and then by original Stage-1 order. -/
def aggregateIndexed (labels : List String) (f : String → String)
    (rankings : List (List String)) : List IndexedEntry :=
  List.insertionSort entryLE (rawEntriesFrom f rankings 0 labels)

/-- Modelled from the spec: the Ranking Aggregator. `labels` are the
anonymized labels in Stage-1 order, `f` translates a label back to the real
model identity, `rankings` are the parsed Stage-2 rankings. -/
def aggregateRankings (labels : List String) (f : String → String)
    (rankings : List (List String)) : List AggregateEntry :=
  (aggregateIndexed labels f rankings).map (fun a => a.entry)

/-! ## Stage 3 and the orchestrator -/

/-- Modelled from the spec: the Stage-3 result `{model: chairman identity,
response: synthesized text}`. -/
structure Stage3Result where
  model : String
  response : String
  deriving DecidableEq, Repr

/-- Modelled from the spec: the chairman oracle, given the chairman identity,
the full Stage-1 response set and the aggregate ranking. -/
def ChairOracle : Type :=
  String → List ModelResponse → List AggregateEntry → Except ModelError String

/-- Modelled from the spec: `CouncilMetadata`: the label-to-model mapping and
the ordered aggregate rankings. -/
structure CouncilMetadata where
  label_to_model : List (String × String)
  aggregate_rankings : List AggregateEntry
  deriving DecidableEq, Repr

/-- Modelled from the spec: the orchestrator-level fatal error: a chairman
failure propagates as a hard error (no fallback chairman). -/
inductive CouncilError where
  | chairmanFailure (e : ModelError)
  deriving DecidableEq, Repr

/-- Modelled from the spec: the 4-tuple returned by `run_full_council`:
(stage1, stage2, stage3, metadata). -/
structure CouncilResult where
  stage1 : List ModelResponse
  stage2 : List Stage2Result
  stage3 : Stage3Result
  metadata : CouncilMetadata
  deriving DecidableEq, Repr

/-- The label-to-model association list recorded in the metadata. -/
def labelPairs (rs : List ModelResponse) : List (String × String) :=
  (anonymize rs).map (fun p => (p.1, p.2.model))

/-- Translate a label back to the real model identity via the anonymization
map (identity fallback for unknown labels). -/
def modelOfLabel (rs : List ModelResponse) (l : String) : String :=
  (((anonymize rs).find? (fun p => p.1 == l)).map (fun p => p.2.model)).getD l

/-- Modelled from the spec: the aggregate ranking computed by the
orchestrator from a Stage-1 result list: labels in Stage-1 order, translated
back to real model identities, over the parsed Stage-2 rankings. -/
def councilAggregate (s1 : List ModelResponse) (rank : RankOracle) :
    List AggregateEntry :=
  aggregateRankings ((anonymize s1).map (fun p => p.1)) (modelOfLabel s1)
    ((stage2 s1 rank).map (fun x => x.parsed_ranking))

/-- Modelled from the spec: `run_full_council`. Stage 1 fans out to the
council, the successful subset is anonymized and peer-ranked in Stage 2, the
parsed rankings are aggregated, and the chairman synthesizes Stage 3; a
chairman failure is fatal for the whole run. -/
def runFullCouncil (models : List String) (chairman : String)
    (send : SendOracle) (rank : RankOracle) (chair : ChairOracle) :
    Except CouncilError CouncilResult :=
  match chair chairman (stage1 models send)
      (councilAggregate (stage1 models send) rank) with
  | .error e => .error (.chairmanFailure e)
  | .ok t =>
    .ok ⟨stage1 models send, stage2 (stage1 models send) rank, ⟨chairman, t⟩,
      ⟨labelPairs (stage1 models send), councilAggregate (stage1 models send) rank⟩⟩

/-- Outcome of the CLI's `run_council` wrapper (`cli.py` lines 51-68, 122):
either the final synthesis is printed, or the orchestrator error propagates
out of `asyncio.run` and the process dies with a nonzero exit code. -/
inductive CliRunOutcome where
  | printedSynthesis (s : Stage3Result)
  | errorExit (e : CouncilError) (exitCode : Nat)
  deriving DecidableEq, Repr

/-- The CLI behavior around `run_full_council` (`cli.py` line 58 and 68): on
success `print_stage3` runs on the returned stage-3 dict; an exception from
the orchestrator propagates and the process exits nonzero (Python exits with
code 1 on an uncaught exception). -/
def runCouncilCli (models : List String) (chairman : String)
    (send : SendOracle) (rank : RankOracle) (chair : ChairOracle) :
    CliRunOutcome :=
  match runFullCouncil models chairman send rank chair with
  | .ok r => .printedSynthesis r.stage3
  | .error e => .errorExit e 1

/-! ## Concurrent slot model for Stage 1

Modelled from the spec: each per-model request writes its result to its own
independent slot; the stage joins on all of them, so the collected output is
independent of the completion order. `order` lists the slot indices in the
order the concurrent calls happen to complete. -/

/-- Modelled from the spec: fill the per-model result slots in completion
order; each task writes only its own slot. -/
def runSlots (models : List String) (send : SendOracle) (order : List Nat) :
    Nat → Option ModelResponse :=
  order.foldl
    (fun slots i => fun j =>
      if j = i then (models[i]?).map (respondTo send) else slots j)
    (fun _ => none)

/-- Modelled from the spec: Stage 1 under the concurrent slot model: after the
fan-in barrier, read the slots back in configured order. -/
def stage1Concurrent (models : List String) (send : SendOracle)
    (order : List Nat) : List ModelResponse :=
  (List.range models.length).filterMap (runSlots models send order)

/-! ## General lemmas -/

theorem respondTo_model (send : SendOracle) (m : String) :
    (respondTo send m).model = m := by
  unfold respondTo; cases send m <;> rfl

theorem respondTo_of_error (send : SendOracle) (m : String) (e : ModelError)
    (h : send m = .error e) : respondTo send m = ⟨m, "", some e⟩ := by
  unfold respondTo; rw [h]

theorem stage1_map_model (models : List String) (send : SendOracle) :
    (stage1 models send).map (fun r => r.model) = models := by
  unfold stage1
  rw [List.map_map]
  refine List.map_congr_left (fun m _ => respondTo_model send m) |>.trans (List.map_id _)

theorem stage1_length (models : List String) (send : SendOracle) :
    (stage1 models send).length = models.length := by
  unfold stage1; exact List.length_map _ _

theorem mem_stage1 (models : List String) (send : SendOracle)
    (r : ModelResponse) (h : r ∈ stage1 models send) :
    ∃ m ∈ models, respondTo send m = r := by
  unfold stage1 at h
  exact List.mem_map.mp h

theorem mem_successes (rs : List ModelResponse) (r : ModelResponse) :
    r ∈ successes rs ↔ r ∈ rs ∧ r.error = none := by
  unfold successes
  rw [List.mem_filter, Option.isNone_iff_eq_none]

theorem mem_assignLabels (l : List ModelResponse) :
    ∀ (i : Nat) (p : String × ModelResponse), p ∈ assignLabels i l → p.2 ∈ l := by
  induction l with
  | nil => intro i p h; cases h
  | cons r rest ih =>
    intro i p h
    rcases List.mem_cons.mp h with h | h
    · rw [h]; exact List.mem_cons_self r rest
    · exact List.mem_cons_of_mem r (ih (i + 1) p h)

theorem assignLabels_map_fst (l : List ModelResponse) :
    ∀ i : Nat, (assignLabels i l).map (fun p => p.1)
      = (List.range' i l.length).map labelOf := by
  induction l with
  | nil => intro i; rfl
  | cons r rest ih =>
    intro i
    rw [show assignLabels i (r :: rest) = (labelOf i, r) :: assignLabels (i + 1) rest from rfl]
    rw [List.map_cons, ih (i + 1), List.length_cons, List.range'_succ, List.map_cons]

theorem runSlots_foldl (models : List String) (send : SendOracle) :
    ∀ (order : List Nat) (slots : Nat → Option ModelResponse) (i : Nat),
      order.foldl
        (fun slots i => fun j =>
          if j = i then (models[i]?).map (respondTo send) else slots j)
        slots i
      = if i ∈ order then (models[i]?).map (respondTo send) else slots i := by
  intro order
  induction order with
  | nil => intro slots i; simp
  | cons j rest ih =>
    intro slots i
    rw [List.foldl_cons, ih]
    by_cases hir : i ∈ rest
    · simp [hir]
    · by_cases hij : i = j
      · subst hij; simp [hir]
      · simp [hir, hij]

theorem runSlots_eq (models : List String) (send : SendOracle)
    (order : List Nat) (i : Nat) (h : i ∈ order) :
    runSlots models send order i = (models[i]?).map (respondTo send) := by
  unfold runSlots
  rw [runSlots_foldl, if_pos h]

theorem filterMap_range_getElem {α β : Type} (l : List α) (g : α → β) :
    (List.range l.length).filterMap (fun i => (l[i]?).map g) = l.map g := by
  induction l with
  | nil => rfl
  | cons a l ih =>
    rw [List.length_cons, List.range_succ_eq_map, List.filterMap_cons,
      List.filterMap_map]
    simp only [List.getElem?_cons_zero, Option.map_some', Function.comp_def,
      Nat.succ_eq_add_one, List.getElem?_cons_succ]
    rw [ih, List.map_cons]

theorem mem_collectLabels (known : List String) :
    ∀ (sufs : List (List Char)) (acc : List String) (x : String),
      x ∈ collectLabels known sufs acc →
      x ∈ acc ∨ (x ∈ known ∧ ∃ suf ∈ sufs, x.data.isPrefixOf suf = true) := by
  intro sufs
  induction sufs with
  | nil => intro acc x h; exact Or.inl h
  | cons suf rest ih =>
    intro acc x h
    rw [collectLabels] at h
    by_cases hall : known.all (fun l => acc.contains l)
    · rw [if_pos hall] at h; exact Or.inl h
    · rw [if_neg hall] at h
      rcases ih _ x h with hx | ⟨hk, suf', hs', hp⟩
      · rcases List.mem_append.mp hx with h1 | h1
        · exact Or.inl h1
        · have h2 := List.mem_filter.mp h1
          have h3 := List.mem_filter.mp h2.1
          exact Or.inr ⟨h3.1, suf, List.mem_cons_self _ _, h3.2⟩
      · exact Or.inr ⟨hk, suf', List.mem_cons_of_mem _ hs', hp⟩

theorem collectLabels_nodup (known : List String) (hk : known.Nodup) :
    ∀ (sufs : List (List Char)) (acc : List String), acc.Nodup →
      (collectLabels known sufs acc).Nodup := by
  intro sufs
  induction sufs with
  | nil => intro acc h; exact h
  | cons suf rest ih =>
    intro acc h
    rw [collectLabels]
    by_cases hall : known.all (fun l => acc.contains l)
    · rw [if_pos hall]; exact h
    · rw [if_neg hall]
      refine ih _ (List.nodup_append.mpr ⟨h, (hk.filter _).filter _, ?_⟩)
      intro x hx hx'
      have h2 := (List.mem_filter.mp hx').2
      rw [Bool.not_eq_true'] at h2
      have h3 : acc.contains x = true := by simp [hx]
      rw [h2] at h3
      cases h3

theorem collectLabels_no_match (known : List String) :
    ∀ (sufs : List (List Char)) (acc : List String),
      (∀ l ∈ known, ∀ suf ∈ sufs, ¬ l.data.isPrefixOf suf = true) →
      collectLabels known sufs acc = acc := by
  intro sufs
  induction sufs with
  | nil => intro acc _; rfl
  | cons suf rest ih =>
    intro acc hno
    rw [collectLabels]
    by_cases hall : known.all (fun l => acc.contains l)
    · rw [if_pos hall]
    · rw [if_neg hall]
      have hmatch : labelMatchesAt known suf = [] := by
        unfold labelMatchesAt
        exact List.filter_eq_nil_iff.mpr
          (fun l hl => hno l hl suf (List.mem_cons_self _ _))
      rw [hmatch]
      rw [show ([] : List String).filter (fun l => !(acc.contains l)) = [] from rfl,
        List.append_nil]
      exact ih acc (fun l hl suf' hs' => hno l hl suf' (List.mem_cons_of_mem _ hs'))

theorem collectLabels_mono (known : List String) :
    ∀ (sufs : List (List Char)) (acc : List String) (x : String),
      x ∈ acc → x ∈ collectLabels known sufs acc := by
  intro sufs
  induction sufs with
  | nil => intro acc x h; exact h
  | cons suf rest ih =>
    intro acc x h
    rw [collectLabels]
    by_cases hall : known.all (fun l => acc.contains l)
    · rw [if_pos hall]; exact h
    · rw [if_neg hall]
      exact ih _ x (List.mem_append_left _ h)

theorem collectLabels_complete (known : List String) :
    ∀ (sufs : List (List Char)) (acc : List String) (l : String),
      l ∈ known → (∃ suf ∈ sufs, l.data.isPrefixOf suf = true) →
      l ∈ collectLabels known sufs acc := by
  intro sufs
  induction sufs with
  | nil =>
    intro acc l _ h
    rcases h with ⟨suf, hs, _⟩
    cases hs
  | cons suf rest ih =>
    intro acc l hk hocc
    rw [collectLabels]
    by_cases hall : known.all (fun x => acc.contains x)
    · rw [if_pos hall]
      have h1 := List.all_eq_true.mp hall l hk
      simpa using h1
    · rw [if_neg hall]
      rcases hocc with ⟨suf', hs', hpre⟩
      rcases List.mem_cons.mp hs' with h | h
      · subst h
        by_cases hacc : l ∈ acc
        · exact collectLabels_mono known rest _ l (List.mem_append_left _ hacc)
        · refine collectLabels_mono known rest _ l (List.mem_append_right _ ?_)
          refine List.mem_filter.mpr ⟨List.mem_filter.mpr ⟨hk, hpre⟩, ?_⟩
          simp [hacc]
      · exact ih _ l hk ⟨suf', h, hpre⟩

theorem collectLabels_split (known : List String) :
    ∀ (sufs : List (List Char)) (acc : List String),
      ∃ new, collectLabels known sufs acc = acc ++ new ∧
        (∀ x ∈ new, x ∉ acc) ∧
        List.Pairwise (fun a b => firstHit a sufs ≤ firstHit b sufs) new := by
  intro sufs
  induction sufs with
  | nil =>
    intro acc
    exact ⟨[], (List.append_nil acc).symm,
      fun x hx => absurd hx (List.not_mem_nil x), List.Pairwise.nil⟩
  | cons suf rest ih =>
    intro acc
    by_cases hall : known.all (fun l => acc.contains l)
    · refine ⟨[], ?_, fun x hx => absurd hx (List.not_mem_nil x), List.Pairwise.nil⟩
      rw [collectLabels, if_pos hall, List.append_nil]
    · obtain ⟨new', heq, hnotin, hpair⟩ :=
        ih (acc ++ (labelMatchesAt known suf).filter (fun l => !(acc.contains l)))
      have hnews0 : ∀ a ∈ (labelMatchesAt known suf).filter
          (fun l => !(acc.contains l)), firstHit a (suf :: rest) = 0 := by
        intro a ha
        have hpre := (List.mem_filter.mp (List.mem_filter.mp ha).1).2
        simp [firstHit, List.findIdx_cons, hpre]
      have hnew'mem : ∀ x ∈ new',
          x ∈ collectLabels known rest
            (acc ++ (labelMatchesAt known suf).filter (fun l => !(acc.contains l))) := by
        intro x hx
        rw [heq]
        exact List.mem_append_right _ hx
      have hnew'nosuf : ∀ x ∈ new', x.data.isPrefixOf suf = false := by
        intro x hx
        by_contra hpre
        rw [Bool.not_eq_false] at hpre
        have hxknown : x ∈ known := by
          rcases mem_collectLabels known rest _ x (hnew'mem x hx) with hin | ⟨hk, _⟩
          · exact absurd hin (hnotin x hx)
          · exact hk
        have hxacc : x ∉ acc := fun hmem =>
          hnotin x hx (List.mem_append_left _ hmem)
        refine hnotin x hx (List.mem_append_right _ ?_)
        refine List.mem_filter.mpr ⟨List.mem_filter.mpr ⟨hxknown, hpre⟩, ?_⟩
        simp [hxacc]
      refine ⟨(labelMatchesAt known suf).filter (fun l => !(acc.contains l)) ++ new',
        ?_, ?_, ?_⟩
      · rw [collectLabels, if_neg hall, heq, List.append_assoc]
      · intro x hx
        rcases List.mem_append.mp hx with hx | hx
        · have h2 := (List.mem_filter.mp hx).2
          intro hmem
          simp [hmem] at h2
        · intro hmem
          exact hnotin x hx (List.mem_append_left _ hmem)
      · rw [List.pairwise_append]
        refine ⟨?_, ?_, ?_⟩
        · refine List.pairwise_of_forall_mem_list ?_
          intro a ha b _
          rw [hnews0 a ha]
          exact Nat.zero_le _
        · refine hpair.imp_of_mem ?_
          intro a b ha hb hab
          have ha' : firstHit a (suf :: rest) = firstHit a rest + 1 := by
            simp [firstHit, List.findIdx_cons, hnew'nosuf a ha]
          have hb' : firstHit b (suf :: rest) = firstHit b rest + 1 := by
            simp [firstHit, List.findIdx_cons, hnew'nosuf b hb]
          omega
        · intro a ha b _
          rw [hnews0 a ha]
          exact Nat.zero_le _

theorem positionsOf_eq (l : String) (rankings : List (List String)) :
    positionsOf l rankings
      = (rankings.filter (fun r => decide (l ∈ r))).map
          (fun r => r.findIdx (fun b => b == l) + 1) := by
  induction rankings with
  | nil => rfl
  | cons r rest ih =>
    by_cases h : l ∈ r
    · simp only [positionsOf, List.filterMap_cons, List.filter_cons] at ih ⊢
      simp [h, ih]
    · simp only [positionsOf, List.filterMap_cons, List.filter_cons] at ih ⊢
      simp [h, ih]

theorem positionsOf_eq_nil (l : String) (rankings : List (List String))
    (h : ∀ r ∈ rankings, l ∉ r) : positionsOf l rankings = [] := by
  unfold positionsOf
  rw [List.filterMap_eq_nil_iff]
  intro r hr
  rw [if_neg (h r hr)]

theorem positionsOf_perm (l : String) {rk rk' : List (List String)}
    (h : rk.Perm rk') : (positionsOf l rk).Perm (positionsOf l rk') :=
  h.filterMap _

theorem isEmpty_eq_length (xs : List Nat) : xs.isEmpty = (xs.length == 0) := by
  cases xs <;> rfl

theorem rawEntriesFrom_perm (f : String → String) {rk rk' : List (List String)}
    (h : rk.Perm rk') :
    ∀ (labels : List String) (i : Nat),
      rawEntriesFrom f rk i labels = rawEntriesFrom f rk' i labels := by
  intro labels
  induction labels with
  | nil => intro i; rfl
  | cons l ls ih =>
    intro i
    have hp := positionsOf_perm l h
    have hsum : (positionsOf l rk).sum = (positionsOf l rk').sum := hp.sum_eq
    have hlen : (positionsOf l rk).length = (positionsOf l rk').length :=
      hp.length_eq
    have hemp : (positionsOf l rk).isEmpty = (positionsOf l rk').isEmpty := by
      rw [isEmpty_eq_length, isEmpty_eq_length, hlen]
    rw [rawEntriesFrom, rawEntriesFrom, hsum, hlen, hemp]
    by_cases he : (positionsOf l rk').isEmpty
    · rw [if_pos he, if_pos he, ih]
    · rw [if_neg he, if_neg he, ih]

theorem mem_rawEntriesFrom (f : String → String) (rk : List (List String)) :
    ∀ (labels : List String) (i : Nat) (a : IndexedEntry),
      a ∈ rawEntriesFrom f rk i labels →
      ∃ j l, labels[j]? = some l ∧ a.idx = i + j ∧
        (positionsOf l rk).isEmpty = false ∧
        a.entry = ⟨f l,
          ((positionsOf l rk).sum : ℚ) / ((positionsOf l rk).length : ℚ),
          (positionsOf l rk).length⟩ := by
  intro labels
  induction labels with
  | nil => intro i a h; cases h
  | cons l ls ih =>
    intro i a h
    rw [rawEntriesFrom] at h
    by_cases he : (positionsOf l rk).isEmpty
    · rw [if_pos he] at h
      obtain ⟨j, l', h1, h2, h3, h4⟩ := ih (i + 1) a h
      exact ⟨j + 1, l', by simpa using h1, by omega, h3, h4⟩
    · rw [if_neg he] at h
      rcases List.mem_cons.mp h with h | h
      · refine ⟨0, l, List.getElem?_cons_zero, by rw [h]; simp,
          by simpa using he, by rw [h]⟩
      · obtain ⟨j, l', h1, h2, h3, h4⟩ := ih (i + 1) a h
        exact ⟨j + 1, l', by simpa using h1, by omega, h3, h4⟩

theorem rawEntriesFrom_complete (f : String → String) (rk : List (List String)) :
    ∀ (labels : List String) (i j : Nat) (l : String),
      labels[j]? = some l → (positionsOf l rk).isEmpty = false →
      (⟨⟨f l, ((positionsOf l rk).sum : ℚ) / ((positionsOf l rk).length : ℚ),
          (positionsOf l rk).length⟩, i + j⟩ : IndexedEntry)
        ∈ rawEntriesFrom f rk i labels := by
  intro labels
  induction labels with
  | nil => intro i j l h _; simp at h
  | cons l0 ls ih =>
    intro i j l hj he
    cases j with
    | zero =>
      rw [List.getElem?_cons_zero] at hj
      injection hj with hj
      subst hj
      rw [rawEntriesFrom, if_neg (by simp [he])]
      rw [Nat.add_zero]
      exact List.mem_cons_self _ _
    | succ j' =>
      rw [List.getElem?_cons_succ] at hj
      rw [rawEntriesFrom]
      by_cases he0 : (positionsOf l0 rk).isEmpty
      · rw [if_pos he0]
        have h2 := ih (i + 1) j' l hj he
        rwa [show i + 1 + j' = i + (j' + 1) from by omega] at h2
      · rw [if_neg he0]
        refine List.mem_cons_of_mem _ ?_
        have h2 := ih (i + 1) j' l hj he
        rwa [show i + 1 + j' = i + (j' + 1) from by omega] at h2

theorem rawEntriesFrom_map_model (f : String → String) (rk : List (List String)) :
    ∀ (labels : List String) (i : Nat),
      (rawEntriesFrom f rk i labels).map (fun a => a.entry.model)
        = (labels.filter (fun l => !(positionsOf l rk).isEmpty)).map f := by
  intro labels
  induction labels with
  | nil => intro i; rfl
  | cons l ls ih =>
    intro i
    rw [rawEntriesFrom, List.filter_cons]
    by_cases he : (positionsOf l rk).isEmpty
    · rw [if_pos he, if_neg (by simp [he]), ih]
    · rw [if_neg he, if_pos (by simp [Bool.not_eq_true] at he; simp [he]),
        List.map_cons, List.map_cons, ih]

theorem entryLE_proj {a b : IndexedEntry} (h : entryLE a b) :
    a.entry.average_rank < b.entry.average_rank ∨
      (a.entry.average_rank = b.entry.average_rank ∧
        b.entry.rankings_count ≤ a.entry.rankings_count) := by
  unfold entryLE entryKey at h
  rw [Prod.Lex.le_iff] at h
  dsimp only at h
  rcases h with h | ⟨h1, h2⟩
  · exact Or.inl h
  · rw [Prod.Lex.le_iff] at h2
    dsimp only at h2
    rcases h2 with h2 | ⟨h2, _⟩
    · exact Or.inr ⟨h1, by omega⟩
    · exact Or.inr ⟨h1, by omega⟩

theorem stage2_model_mem (rs : List ModelResponse) (rank : RankOracle)
    (x : Stage2Result) (h : x ∈ stage2 rs rank) :
    ∃ r ∈ successes rs, x.model = r.model := by
  unfold stage2 at h
  obtain ⟨r, hr, hx⟩ := List.mem_map.mp h
  refine ⟨r, hr, ?_⟩
  rw [← hx]
  cases hrk : rank r.model (anonymize rs) <;> rfl

/-! ## Claim theorems -/

/-- C10: `main` resolves the prompt with strict precedence `--file` over the
positional prompt over piped stdin (file and stdin contents stripped of
surrounding whitespace); an empty resolved prompt prints "Error: Empty
prompt" to stderr and exits 1 without invoking the council; with no prompt
source at all it prints help and exits 1. -/
theorem c10_cli_prompt_resolution :
    (∀ (args : CliArgs) (readFile : String → String) (stdinContent : String),
      optTruthy args.file = true →
      resolvePrompt args readFile stdinContent
        = promptCheck (pyStrip (readFile (args.file.getD "")))) ∧
    (∀ (args : CliArgs) (readFile : String → String) (stdinContent : String),
      optTruthy args.file = false → optTruthy args.prompt = true →
      resolvePrompt args readFile stdinContent
        = promptCheck (args.prompt.getD "")) ∧
    (∀ (args : CliArgs) (readFile : String → String) (stdinContent : String),
      optTruthy args.file = false → optTruthy args.prompt = false →
      args.stdinIsTty = false →
      resolvePrompt args readFile stdinContent = promptCheck (pyStrip stdinContent)) ∧
    (∀ (args : CliArgs) (readFile : String → String) (stdinContent : String),
      optTruthy args.file = false → optTruthy args.prompt = false →
      args.stdinIsTty = true →
      resolvePrompt args readFile stdinContent = .helpThenExit 1) ∧
    (promptCheck "" = .emptyPromptError "Error: Empty prompt" 1) ∧
    (∀ p : String, p ≠ "" → promptCheck p = .run p) := by
  refine ⟨?_, ?_, ?_, ?_, by rfl, ?_⟩
  · intro args readFile stdinContent h
    simp [resolvePrompt, h]
  · intro args readFile stdinContent h1 h2
    simp [resolvePrompt, h1, h2]
  · intro args readFile stdinContent h1 h2 h3
    simp [resolvePrompt, h1, h2, h3]
  · intro args readFile stdinContent h1 h2 h3
    simp [resolvePrompt, h1, h2, h3]
  · intro p hp
    simp [promptCheck, hp]

/-- C1: the Ranking Aggregator gives every label mentioned by at least one
ranking exactly the average of its 1-indexed positions over the rankings
that mention it together with their count (and nothing to unmentioned
labels), and sorts ascending by average rank, ties by descending
rankings_count, remaining ties by original Stage-1 order (the sort key on
the indexed entries); on rankings [[A,B,C],[B,A,C],[A,C,B]] the averages are
A=4/3, B=2, C=8/3, in that order, and an average-rank tie is won by the
higher rankings_count. -/
theorem c1_ranking_aggregator :
    (∀ (labels : List String) (f : String → String)
      (rankings : List (List String)),
      aggregateRankings labels f rankings
        = (aggregateIndexed labels f rankings).map (fun a => a.entry)) ∧
    (∀ (labels : List String) (f : String → String)
      (rankings : List (List String)),
      ∀ a ∈ aggregateIndexed labels f rankings,
        ∃ l, labels[a.idx]? = some l ∧ (positionsOf l rankings).isEmpty = false ∧
          a.entry = ⟨f l,
            ((positionsOf l rankings).sum : ℚ) / ((positionsOf l rankings).length : ℚ),
            (positionsOf l rankings).length⟩) ∧
    (∀ (labels : List String) (f : String → String)
      (rankings : List (List String)) (j : Nat) (l : String),
      labels[j]? = some l → (positionsOf l rankings).isEmpty = false →
      (⟨f l, ((positionsOf l rankings).sum : ℚ) / ((positionsOf l rankings).length : ℚ),
          (positionsOf l rankings).length⟩ : AggregateEntry)
        ∈ aggregateRankings labels f rankings) ∧
    (∀ (l : String) (rankings : List (List String)),
      positionsOf l rankings
        = (rankings.filter (fun r => decide (l ∈ r))).map
            (fun r => r.findIdx (fun b => b == l) + 1)) ∧
    (∀ (labels : List String) (f : String → String)
      (rankings : List (List String)),
      List.Sorted entryLE (aggregateIndexed labels f rankings)) ∧
    (∀ (labels : List String) (f : String → String)
      (rankings : List (List String)),
      List.Pairwise
        (fun a b : AggregateEntry => a.average_rank < b.average_rank ∨
          (a.average_rank = b.average_rank ∧ b.rankings_count ≤ a.rankings_count))
        (aggregateRankings labels f rankings)) ∧
    aggregateRankings ["A", "B", "C"] (fun l => l)
        [["A", "B", "C"], ["B", "A", "C"], ["A", "C", "B"]]
      = [⟨"A", 4 / 3, 3⟩, ⟨"B", 2, 3⟩, ⟨"C", 8 / 3, 3⟩] ∧
    aggregateRankings ["X", "Y"] (fun l => l) [["X"], ["X"], ["X"], ["Y"]]
      = [⟨"X", 1, 3⟩, ⟨"Y", 1, 1⟩] := by
  refine ⟨fun _ _ _ => rfl, ?_, ?_, positionsOf_eq, ?_, ?_, ?_, ?_⟩
  · intro labels f rankings a ha
    unfold aggregateIndexed at ha
    have ha' := (List.mem_insertionSort entryLE).mp ha
    obtain ⟨j, l, h1, h2, h3, h4⟩ := mem_rawEntriesFrom f rankings labels 0 a ha'
    rw [Nat.zero_add] at h2
    rw [← h2] at h1
    exact ⟨l, h1, h3, h4⟩
  · intro labels f rankings j l hj he
    have hmem := rawEntriesFrom_complete f rankings labels 0 j l hj he
    rw [Nat.zero_add] at hmem
    unfold aggregateRankings
    exact List.mem_map.mpr
      ⟨_, (List.mem_insertionSort entryLE).mpr hmem, rfl⟩
  · intro labels f rankings
    exact List.sorted_insertionSort entryLE _
  · intro labels f rankings
    unfold aggregateRankings
    exact List.Pairwise.map _ (fun a b hab => entryLE_proj hab)
      (List.sorted_insertionSort entryLE _)
  · have h1 : positionsOf "A" [["A", "B", "C"], ["B", "A", "C"], ["A", "C", "B"]]
        = [1, 2, 1] := by decide
    have h2 : positionsOf "B" [["A", "B", "C"], ["B", "A", "C"], ["A", "C", "B"]]
        = [2, 1, 3] := by decide
    have h3 : positionsOf "C" [["A", "B", "C"], ["B", "A", "C"], ["A", "C", "B"]]
        = [3, 3, 2] := by decide
    simp only [aggregateRankings, aggregateIndexed, List.insertionSort,
      rawEntriesFrom, h1, h2, h3]
    norm_num [List.orderedInsert, entryLE, entryKey, Prod.Lex.le_iff]
  · have h1 : positionsOf "X" [["X"], ["X"], ["X"], ["Y"]] = [1, 1, 1] := by decide
    have h2 : positionsOf "Y" [["X"], ["X"], ["X"], ["Y"]] = [1] := by decide
    simp only [aggregateRankings, aggregateIndexed, List.insertionSort,
      rawEntriesFrom, h1, h2]
    norm_num [List.orderedInsert, entryLE, entryKey, Prod.Lex.le_iff]

/-- Witness for C1: on one concrete ranking set, the label "A" receives its
aggregate entry through the completeness clause. -/
theorem c1_ranking_aggregator_witness :
    (⟨(fun l => l) "A",
        ((positionsOf "A" [["A", "B"]]).sum : ℚ)
          / ((positionsOf "A" [["A", "B"]]).length : ℚ),
        (positionsOf "A" [["A", "B"]]).length⟩ : AggregateEntry)
      ∈ aggregateRankings ["A", "B"] (fun l => l) [["A", "B"]] :=
  c1_ranking_aggregator.2.2.1 ["A", "B"] (fun l => l) [["A", "B"]] 0 "A"
    (by decide) (by decide)

/-- C6: ranking aggregation is invariant under permutation of the supplied
Stage-2 parsed rankings: the whole aggregate output (entries with their
average ranks and rankings_counts, in order) is unchanged. -/
theorem c6_aggregation_order_invariant :
    ∀ (labels : List String) (f : String → String)
      (rankings rankings' : List (List String)),
      rankings.Perm rankings' →
      aggregateRankings labels f rankings = aggregateRankings labels f rankings' ∧
      aggregateIndexed labels f rankings = aggregateIndexed labels f rankings' ∧
      (∀ l, (positionsOf l rankings).length = (positionsOf l rankings').length ∧
        (positionsOf l rankings).sum = (positionsOf l rankings').sum) := by
  intro labels f rankings rankings' h
  have hraw : rawEntriesFrom f rankings 0 labels
      = rawEntriesFrom f rankings' 0 labels := rawEntriesFrom_perm f h labels 0
  have hidx : aggregateIndexed labels f rankings
      = aggregateIndexed labels f rankings' := by
    unfold aggregateIndexed; rw [hraw]
  refine ⟨by unfold aggregateRankings; rw [hidx], hidx, fun l => ?_⟩
  exact ⟨(positionsOf_perm l h).length_eq, (positionsOf_perm l h).sum_eq⟩

/-- Witness for C6: swapping the order of two supplied rankings leaves the
aggregate unchanged. -/
theorem c6_aggregation_order_invariant_witness :
    aggregateRankings ["A", "B"] (fun l => l) [["A", "B"], ["B", "A"]]
      = aggregateRankings ["A", "B"] (fun l => l) [["B", "A"], ["A", "B"]] ∧
    aggregateIndexed ["A", "B"] (fun l => l) [["A", "B"], ["B", "A"]]
      = aggregateIndexed ["A", "B"] (fun l => l) [["B", "A"], ["A", "B"]] ∧
    (∀ l, (positionsOf l [["A", "B"], ["B", "A"]]).length
        = (positionsOf l [["B", "A"], ["A", "B"]]).length ∧
      (positionsOf l [["A", "B"], ["B", "A"]]).sum
        = (positionsOf l [["B", "A"], ["A", "B"]]).sum) :=
  c6_aggregation_order_invariant ["A", "B"] (fun l => l)
    [["A", "B"], ["B", "A"]] [["B", "A"], ["A", "B"]] (List.Perm.swap _ _ _)

/-- C7: a label mentioned by no ranking contributes no entry to the
aggregate (with the label-to-model translation injective on the labels), and
each contributing model appears at most once in the aggregate. -/
theorem c7_unmentioned_label_excluded :
    ∀ (labels : List String) (f : String → String)
      (rankings : List (List String)),
      (∀ l1 ∈ labels, ∀ l2 ∈ labels, f l1 = f l2 → l1 = l2) →
      (∀ l ∈ labels, (∀ r ∈ rankings, l ∉ r) →
        ∀ e ∈ aggregateRankings labels f rankings, e.model ≠ f l) ∧
      (labels.Nodup →
        ((aggregateRankings labels f rankings).map (fun e => e.model)).Nodup) := by
  intro labels f rankings hinj
  constructor
  · intro l hl hno e he hmodel
    unfold aggregateRankings at he
    obtain ⟨a, ha, hae⟩ := List.mem_map.mp he
    obtain ⟨j, l', h1, _, h3, h4⟩ := mem_rawEntriesFrom f rankings labels 0 a
      ((List.mem_insertionSort entryLE).mp ha)
    have hl'mem : l' ∈ labels := List.getElem?_mem h1
    have hfl : f l' = f l := by
      rw [← hmodel, ← hae, h4]
    have hll : l' = l := hinj l' hl'mem l hl hfl
    rw [hll, positionsOf_eq_nil l rankings hno] at h3
    cases h3
  · intro hnodup
    have hperm : ((aggregateIndexed labels f rankings).map
          (fun a => a.entry.model)).Perm
        ((rawEntriesFrom f rankings 0 labels).map (fun a => a.entry.model)) :=
      (List.perm_insertionSort entryLE _).map _
    have hraw : ((rawEntriesFrom f rankings 0 labels).map
          (fun a => a.entry.model)).Nodup := by
      rw [rawEntriesFrom_map_model]
      refine List.Nodup.map_on ?_ (hnodup.filter _)
      intro x hx y hy hxy
      exact hinj x (List.mem_of_mem_filter hx) y (List.mem_of_mem_filter hy) hxy
    have : (aggregateRankings labels f rankings).map (fun e => e.model)
        = (aggregateIndexed labels f rankings).map (fun a => a.entry.model) := by
      unfold aggregateRankings
      rw [List.map_map]
      rfl
    rw [this]
    exact hperm.nodup_iff.mpr hraw

/-- Witness for C7: with label "C" mentioned by no ranking, no aggregate
entry carries it, and the aggregate models are duplicate free. -/
theorem c7_unmentioned_label_excluded_witness :
    (∀ e ∈ aggregateRankings ["A", "B", "C"] (fun l => l) [["A", "B"], ["B", "A"]],
      e.model ≠ (fun l => l) "C") ∧
    ((aggregateRankings ["A", "B", "C"] (fun l => l)
        [["A", "B"], ["B", "A"]]).map (fun e => e.model)).Nodup :=
  ⟨(c7_unmentioned_label_excluded ["A", "B", "C"] (fun l => l)
      [["A", "B"], ["B", "A"]] (fun _ _ _ _ h => h)).1 "C" (by decide) (by decide),
   (c7_unmentioned_label_excluded ["A", "B", "C"] (fun l => l)
      [["A", "B"], ["B", "A"]] (fun _ _ _ _ h => h)).2 (by decide)⟩

/-- C2: for every reply text and known label set, the ranking extractor
returns exactly the known labels occurring in the text (soundness and
completeness — a text mentioning only some labels yields that partial set
as-is, and a text mentioning none yields the empty list without failing),
de-duplicated (each label at most once), and listed in order of first
appearance in the text (first-occurrence scan positions are monotone along
the output); on "I'd rank them: B, then A, then C" with known labels A, B,
C it returns [B, A, C]. -/
theorem c2_ranking_extractor :
    (∀ (known : List String) (text : String), known.Nodup →
      (extractRanking known text).Nodup) ∧
    (∀ (known : List String) (text : String) (x : String),
      x ∈ extractRanking known text → x ∈ known ∧ occursIn x text) ∧
    (∀ (known : List String) (text : String) (l : String),
      l ∈ known → occursIn l text → l ∈ extractRanking known text) ∧
    (∀ (known : List String) (text : String),
      List.Pairwise
        (fun a b => firstHit a text.data.tails ≤ firstHit b text.data.tails)
        (extractRanking known text)) ∧
    (∀ (known : List String) (text : String),
      (∀ l ∈ known, ¬ occursIn l text) → extractRanking known text = []) ∧
    extractRanking ["A", "B", "C"] "I'd rank them: B, then A, then C"
      = ["B", "A", "C"] ∧
    extractRanking ["A", "B", "C"] "Only B was any good." = ["B"] ∧
    extractRanking ["A", "B", "C"] "no labels mentioned here" = [] := by
  refine ⟨?_, ?_, ?_, ?_, ?_, by decide, by decide, by decide⟩
  · intro known text hk
    exact collectLabels_nodup known hk _ [] List.nodup_nil
  · intro known text x hx
    rcases mem_collectLabels known _ [] x hx with h | ⟨h1, suf, h2, h3⟩
    · cases h
    · exact ⟨h1, suf, h2, h3⟩
  · intro known text l hk hocc
    rcases hocc with ⟨suf, hs, hpre⟩
    exact collectLabels_complete known _ [] l hk ⟨suf, hs, hpre⟩
  · intro known text
    obtain ⟨new, heq, _, hpair⟩ := collectLabels_split known text.data.tails []
    unfold extractRanking
    rw [heq, List.nil_append]
    exact hpair
  · intro known text hno
    refine collectLabels_no_match known _ [] ?_
    intro l hl suf hs hpre
    exact hno l hl ⟨suf, hs, hpre⟩

/-- Witness for C2: on a concrete reply the extractor output is duplicate
free and contains an occurring label, and a label-free reply extracts to the
empty list. -/
theorem c2_ranking_extractor_witness :
    (extractRanking ["A", "B", "C"] "C beats A, then B").Nodup ∧
    "B" ∈ extractRanking ["A", "B", "C"] "C beats A, then B" ∧
    extractRanking ["A", "B", "C"] "zzz" = [] :=
  ⟨c2_ranking_extractor.1 ["A", "B", "C"] "C beats A, then B" (by decide),
   c2_ranking_extractor.2.2.1 ["A", "B", "C"] "C beats A, then B" "B"
     (by decide) (by decide),
   c2_ranking_extractor.2.2.2.2.1 ["A", "B", "C"] "zzz" (by decide)⟩

/-- C3: a Stage-3 chairman failure is fatal: the orchestrator returns a hard
error (never a 4-tuple with an empty Stage 3), even though Stages 1 and 2
ran, and the CLI consequently exits nonzero instead of printing a final
synthesis. -/
theorem c3_chairman_failure_fatal :
    ∀ (models : List String) (chairman : String) (send : SendOracle)
      (rank : RankOracle) (chair : ChairOracle) (e : ModelError),
      chair chairman (stage1 models send)
          (councilAggregate (stage1 models send) rank) = .error e →
      runFullCouncil models chairman send rank chair
        = .error (.chairmanFailure e) ∧
      runCouncilCli models chairman send rank chair
        = .errorExit (.chairmanFailure e) 1 ∧
      (∀ s, runCouncilCli models chairman send rank chair
        ≠ .printedSynthesis s) := by
  intro models chairman send rank chair e h
  have h1 : runFullCouncil models chairman send rank chair
      = .error (.chairmanFailure e) := by
    unfold runFullCouncil
    rw [h]
  have h2 : runCouncilCli models chairman send rank chair
      = .errorExit (.chairmanFailure e) 1 := by
    unfold runCouncilCli
    rw [h1]
  refine ⟨h1, h2, ?_⟩
  intro s hs
  rw [h2] at hs
  cases hs

/-- Witness for C3: a council of one with a failing chairman: the run is a
hard error and the CLI outcome is a nonzero exit. -/
theorem c3_chairman_failure_fatal_witness :
    runFullCouncil ["m1"] "chair" (fun _ => .ok "resp")
        (fun _ _ => .ok "Response A") (fun _ _ _ => .error .providerError)
      = .error (.chairmanFailure .providerError) ∧
    runCouncilCli ["m1"] "chair" (fun _ => .ok "resp")
        (fun _ _ => .ok "Response A") (fun _ _ _ => .error .providerError)
      = .errorExit (.chairmanFailure .providerError) 1 ∧
    (∀ s, runCouncilCli ["m1"] "chair" (fun _ => .ok "resp")
        (fun _ _ => .ok "Response A") (fun _ _ _ => .error .providerError)
      ≠ .printedSynthesis s) :=
  c3_chairman_failure_fatal ["m1"] "chair" (fun _ => .ok "resp")
    (fun _ _ => .ok "Response A") (fun _ _ _ => .error .providerError)
    .providerError rfl

/-- C8: `run_full_council` returns the 4-tuple (stage1, stage2, stage3,
metadata) with exactly the advertised component shapes: stage1 lists one
{model, response} per council model in order, stage2 entries are
{model, ranking, parsed_ranking} for council members, stage3 is
{model := chairman, response}, and metadata carries label_to_model and the
aggregate_rankings entries {model, average_rank, rankings_count}. -/
theorem c8_return_contract :
    ∀ (models : List String) (chairman : String) (send : SendOracle)
      (rank : RankOracle) (chair : ChairOracle),
      (∀ e, chair chairman (stage1 models send)
          (councilAggregate (stage1 models send) rank) = .error e →
        runFullCouncil models chairman send rank chair
          = .error (.chairmanFailure e)) ∧
      (∀ t, chair chairman (stage1 models send)
          (councilAggregate (stage1 models send) rank) = .ok t →
        runFullCouncil models chairman send rank chair
          = .ok ⟨stage1 models send, stage2 (stage1 models send) rank,
              ⟨chairman, t⟩,
              ⟨labelPairs (stage1 models send),
                councilAggregate (stage1 models send) rank⟩⟩) ∧
      (∀ r, runFullCouncil models chairman send rank chair = .ok r →
        r.stage1.map (fun x => x.model) = models ∧
        r.stage3.model = chairman ∧
        r.stage2 = stage2 (stage1 models send) rank ∧
        r.metadata.label_to_model = labelPairs (stage1 models send) ∧
        r.metadata.aggregate_rankings
          = councilAggregate (stage1 models send) rank ∧
        (∀ x ∈ r.stage2, x.model ∈ models)) := by
  intro models chairman send rank chair
  refine ⟨?_, ?_, ?_⟩
  · intro e he
    unfold runFullCouncil
    rw [he]
  · intro t ht
    unfold runFullCouncil
    rw [ht]
  · intro r hr
    unfold runFullCouncil at hr
    cases hc : chair chairman (stage1 models send)
        (councilAggregate (stage1 models send) rank) with
    | error e => rw [hc] at hr; cases hr
    | ok t =>
      rw [hc] at hr
      injection hr with hr
      subst hr
      refine ⟨stage1_map_model models send, rfl, rfl, rfl, rfl, ?_⟩
      intro x hx
      obtain ⟨resp, hresp, hxm⟩ := stage2_model_mem (stage1 models send) rank x hx
      have hmem : resp ∈ stage1 models send :=
        ((mem_successes (stage1 models send) resp).mp hresp).1
      obtain ⟨m, hm, hrm⟩ := mem_stage1 models send resp hmem
      rw [hxm, ← hrm, respondTo_model]
      exact hm

/-- Witness for C8: a successful single-model run returns the full 4-tuple
built from the stage outputs. -/
theorem c8_return_contract_witness :
    runFullCouncil ["m1"] "chair" (fun _ => .ok "resp")
        (fun _ _ => .ok "Response A") (fun _ _ _ => .ok "final")
      = .ok ⟨stage1 ["m1"] (fun _ => .ok "resp"),
          stage2 (stage1 ["m1"] (fun _ => .ok "resp")) (fun _ _ => .ok "Response A"),
          ⟨"chair", "final"⟩,
          ⟨labelPairs (stage1 ["m1"] (fun _ => .ok "resp")),
            councilAggregate (stage1 ["m1"] (fun _ => .ok "resp"))
              (fun _ _ => .ok "Response A")⟩⟩ :=
  (c8_return_contract ["m1"] "chair" (fun _ => .ok "resp")
    (fun _ _ => .ok "Response A") (fun _ _ _ => .ok "final")).2.1 "final" rfl

/-- C4: Stage 1 returns exactly one `ModelResponse` per configured model,
failed ones included, in configured council order, independently of the
completion order of the concurrent per-model calls (any completion order
that settles every slot yields the same output). -/
theorem c4_stage1_one_entry_per_model :
    ∀ (models : List String) (send : SendOracle) (order : List Nat),
      order.Perm (List.range models.length) →
      stage1Concurrent models send order = stage1 models send ∧
      (stage1 models send).length = models.length ∧
      (stage1 models send).map (fun r => r.model) = models := by
  intro models send order h
  refine ⟨?_, stage1_length models send, stage1_map_model models send⟩
  unfold stage1Concurrent stage1
  exact (List.filterMap_congr
      (fun i hi => runSlots_eq models send order i (h.mem_iff.mpr hi))).trans
    (filterMap_range_getElem models (respondTo send))

/-- Witness for C4: three council models, one failing, with completion order
[2, 0, 1]. -/
theorem c4_stage1_one_entry_per_model_witness :
    stage1Concurrent ["alpha", "beta", "gamma"]
        (fun m => if m == "beta" then .error .timeout else .ok ("answer " ++ m))
        [2, 0, 1]
      = stage1 ["alpha", "beta", "gamma"]
        (fun m => if m == "beta" then .error .timeout else .ok ("answer " ++ m)) ∧
    (stage1 ["alpha", "beta", "gamma"]
        (fun m => if m == "beta" then .error .timeout else .ok ("answer " ++ m))).length
      = (["alpha", "beta", "gamma"] : List String).length ∧
    (stage1 ["alpha", "beta", "gamma"]
        (fun m => if m == "beta" then .error .timeout else .ok ("answer " ++ m))).map
        (fun r => r.model)
      = ["alpha", "beta", "gamma"] :=
  c4_stage1_one_entry_per_model ["alpha", "beta", "gamma"]
    (fun m => if m == "beta" then .error .timeout else .ok ("answer " ++ m))
    [2, 0, 1] (by decide)

/-- C5: a model M that fails in Stage 1 gets an entry carrying the error with
an empty sentinel response text, the stage is not aborted (still one entry
per model), and M is absent from the anonymized set and from the responses
presented in every Stage-2 ranking request. -/
theorem c5_failed_model_excluded :
    ∀ (models : List String) (send : SendOracle) (M : String) (e : ModelError),
      send M = .error e →
      (∀ r ∈ stage1 models send, r.model = M → r.response = "" ∧ r.error = some e) ∧
      (M ∈ models → ∃ r ∈ stage1 models send, r.model = M ∧ r.error = some e) ∧
      (stage1 models send).length = models.length ∧
      (∀ p ∈ anonymize (stage1 models send), p.2.model ≠ M) ∧
      (∀ req ∈ stage2Requests (stage1 models send),
        ∀ p ∈ req.presented, p.2.model ≠ M) := by
  intro models send M e he
  have hentry : ∀ r ∈ stage1 models send, r.model = M →
      r.response = "" ∧ r.error = some e := by
    intro r hr hm
    obtain ⟨m, hmm, hrm⟩ := mem_stage1 models send r hr
    have hmM : m = M := by rw [← hm, ← hrm, respondTo_model]
    subst hmM
    rw [← hrm, respondTo_of_error send m e he]
    exact ⟨rfl, rfl⟩
  have hanon : ∀ p ∈ anonymize (stage1 models send), p.2.model ≠ M := by
    intro p hp hpm
    have hp' : p ∈ assignLabels 0 (successes (stage1 models send)) := hp
    have h2 := mem_assignLabels _ 0 p hp'
    rw [mem_successes] at h2
    have h3 := (hentry p.2 h2.1 hpm).2
    rw [h2.2] at h3
    simp at h3
  refine ⟨hentry, ?_, stage1_length models send, hanon, ?_⟩
  · intro hM
    refine ⟨respondTo send M, List.mem_map.mpr ⟨M, hM, rfl⟩,
      respondTo_model send M, ?_⟩
    rw [respondTo_of_error send M e he]
  · intro req hreq p hp
    unfold stage2Requests at hreq
    obtain ⟨r, _, hr⟩ := List.mem_map.mp hreq
    have hpres : req.presented = anonymize (stage1 models send) := by
      rw [← hr]
    rw [hpres] at hp
    exact hanon p hp

/-- Witness for C5: council of two where "beta" times out. -/
theorem c5_failed_model_excluded_witness :
    (∀ r ∈ stage1 ["alpha", "beta"]
        (fun m => if m == "beta" then .error .timeout else .ok "fine"),
      r.model = "beta" → r.response = "" ∧ r.error = some .timeout) ∧
    ("beta" ∈ (["alpha", "beta"] : List String) →
      ∃ r ∈ stage1 ["alpha", "beta"]
        (fun m => if m == "beta" then .error .timeout else .ok "fine"),
        r.model = "beta" ∧ r.error = some .timeout) ∧
    (stage1 ["alpha", "beta"]
        (fun m => if m == "beta" then .error .timeout else .ok "fine")).length
      = (["alpha", "beta"] : List String).length ∧
    (∀ p ∈ anonymize (stage1 ["alpha", "beta"]
        (fun m => if m == "beta" then .error .timeout else .ok "fine")),
      p.2.model ≠ "beta") ∧
    (∀ req ∈ stage2Requests (stage1 ["alpha", "beta"]
        (fun m => if m == "beta" then .error .timeout else .ok "fine")),
      ∀ p ∈ req.presented, p.2.model ≠ "beta") :=
  c5_failed_model_excluded ["alpha", "beta"]
    (fun m => if m == "beta" then .error .timeout else .ok "fine")
    "beta" .timeout (by rfl)

/-- C9: the anonymization label assignment is a deterministic function of the
ordered Stage-1 success set: identical successful responses (failures aside)
yield identical label assignments, and labels are assigned in input order. -/
theorem c9_anonymization_deterministic :
    ∀ rs1 rs2 : List ModelResponse,
      successes rs1 = successes rs2 →
      anonymize rs1 = anonymize rs2 ∧
      labelPairs rs1 = labelPairs rs2 ∧
      (anonymize rs1).map (fun p => p.1)
        = (List.range (successes rs1).length).map labelOf := by
  intro rs1 rs2 h
  have h1 : anonymize rs1 = anonymize rs2 := by
    unfold anonymize; rw [h]
  refine ⟨h1, by unfold labelPairs; rw [h1], ?_⟩
  unfold anonymize
  rw [assignLabels_map_fst, ← List.range_eq_range']

/-- Witness for C9: a failed entry does not perturb the labels of the
successful ones. -/
theorem c9_anonymization_deterministic_witness :
    anonymize [⟨"a", "x", none⟩, ⟨"b", "", some .timeout⟩, ⟨"c", "y", none⟩]
      = anonymize [⟨"a", "x", none⟩, ⟨"c", "y", none⟩] ∧
    labelPairs [⟨"a", "x", none⟩, ⟨"b", "", some .timeout⟩, ⟨"c", "y", none⟩]
      = labelPairs [⟨"a", "x", none⟩, ⟨"c", "y", none⟩] ∧
    (anonymize [⟨"a", "x", none⟩, ⟨"b", "", some .timeout⟩, ⟨"c", "y", none⟩]).map
        (fun p => p.1)
      = (List.range (successes
          [⟨"a", "x", none⟩, ⟨"b", "", some .timeout⟩, ⟨"c", "y", none⟩]).length).map
          labelOf :=
  c9_anonymization_deterministic
    [⟨"a", "x", none⟩, ⟨"b", "", some .timeout⟩, ⟨"c", "y", none⟩]
    [⟨"a", "x", none⟩, ⟨"c", "y", none⟩] (by decide)

/-- Witness for C10: with a file argument present, the file's stripped
contents win over both a positional prompt and piped stdin. -/
theorem c10_cli_prompt_resolution_witness :
    resolvePrompt ⟨some "p.txt", some "positional", false⟩
      (fun _ => "  hello  ") "stdin stuff" = .run "hello" := by
  rw [c10_cli_prompt_resolution.1 ⟨some "p.txt", some "positional", false⟩
    (fun _ => "  hello  ") "stdin stuff" (by decide)]
  decide

end LLMCouncil
